import Mathlib

/-!
Verification of the astro-security core: the configuration
validation/normalization pipeline (src/config/reader.ts), the config
scaffold/migration step (src/config/writer.ts, src/config/paths.ts), the
deterministic security.txt serializer and atomic writer
(src/build/generate.ts), and the Astro integration hooks (src/index.ts).

The JavaScript code is embedded shallowly:

* Parsed JSON values (the output of `JSON.parse`) are the inductive `Json`;
  JavaScript property access that may yield `undefined` is `Option Json`.
* `Date.parse` validity (reader.ts `isValidISODate`) is kept abstract as a
  parameter `dp : String → Bool`; every theorem quantifies over it, with the
  facts actually needed about it (for example that the empty string does not
  parse, as `Date.parse("")` is `NaN`) taken as explicit hypotheses.
* The filesystem seen by the config store is the two config paths of
  src/config/paths.ts (`NEW_CONFIG_PATH` in `config-files/`, and the legacy
  root-level `LEGACY_CONFIG_PATH`); file contents are an arbitrary type `α`
  with an abstract parse oracle `α → Option Json` standing for
  `readFileSync` + `JSON.parse` (`none` = unreadable or invalid JSON).
* I/O functions additionally return the list of mutating filesystem
  operations they perform, so that operational claims (rename versus
  copy-then-delete, write-then-rename ordering) are statable.
-/

namespace AstroSecurity

/-- A parsed JSON value, as `JSON.parse` produces it. -/
inductive Json where
  | null
  | bool (b : Bool)
  | num (n : Int)
  | str (s : String)
  | arr (elems : List Json)
  | obj (fields : List (String × Json))

/-- JavaScript property access `j[key]`: `some` the value for an object that
has the key, `none` for `undefined` (absent key, or a non-object receiver —
the string keys the reader uses are not built-in array properties). -/
def Json.getField (j : Json) (key : String) : Option Json :=
  match j with
  | .obj fields => fields.lookup key
  | _ => none

/-- reader.ts `isObject`: `typeof value === "object" && value !== null`.
In JavaScript an array also has `typeof` `"object"`, so arrays pass. -/
def isObject : Json → Bool
  | .obj _ => true
  | .arr _ => true
  | _ => false

/-- `isObject` on a possibly-`undefined` value (`isObject(input.policy)`
with `input.policy` absent is `false`). -/
def isObjectV : Option Json → Bool
  | some j => isObject j
  | none => false

/-- `String.prototype.startsWith`: the code units of `pre` are a prefix of
the code units of `s`. -/
def jsStartsWith (s pre : String) : Bool :=
  pre.data.isPrefixOf s.data

/-- reader.ts `isString`: `typeof value === "string" && value.length > 0`,
on the payload of a JSON string value. -/
def isNonEmptyStr (s : String) : Bool :=
  s.length != 0

/-- reader.ts `isValidContact` on a string payload: non-empty and prefixed
`mailto:` or `https://`. -/
def isValidContactS (s : String) : Bool :=
  isNonEmptyStr s && (jsStartsWith s "mailto:" || jsStartsWith s "https://")

/-- `input.policy.contact.filter(isValidContact)`: keep the string elements
that pass `isValidContact`, in order, typed as strings. -/
def filterContacts (xs : List Json) : List String :=
  xs.filterMap fun v =>
    match v with
    | .str s => if isValidContactS s then some s else none
    | _ => none

/-- reader.ts `asOptionalHttps`: the value when it is a non-empty string
starting `https://`, else `undefined`. -/
def asOptionalHttps (v : Option Json) : Option String :=
  match v with
  | some (.str s) => if isNonEmptyStr s && jsStartsWith s "https://" then some s else none
  | _ => none

/-- The string elements of a JSON array, in order. -/
def jsonStringElems (xs : List Json) : List String :=
  xs.filterMap fun v =>
    match v with
    | .str s => some s
    | _ => none

/-- The filter closure of reader.ts `asOptionalHttpsArray`: the non-empty
`https://`-prefixed string elements, in order. -/
def httpsStringElems (xs : List Json) : List String :=
  xs.filterMap fun v =>
    match v with
    | .str s => if isNonEmptyStr s && jsStartsWith s "https://" then some s else none
    | _ => none

/-- The filter closure of reader.ts `asOptionalStringArray`: the non-empty
string elements, in order. -/
def nonEmptyStringElems (xs : List Json) : List String :=
  xs.filterMap fun v =>
    match v with
    | .str s => if isNonEmptyStr s then some s else none
    | _ => none

/-- reader.ts `asOptionalHttpsArray`: `undefined` unless the value is an
array whose `https://`-prefixed non-empty string elements, kept in order,
are non-empty as a list. -/
def asOptionalHttpsArray (v : Option Json) : Option (List String) :=
  match v with
  | some (.arr xs) =>
    let filtered := httpsStringElems xs
    if filtered.length != 0 then some filtered else none
  | _ => none

/-- reader.ts `asOptionalStringArray`: `undefined` unless the value is an
array whose non-empty string elements, kept in order, are non-empty as a
list. -/
def asOptionalStringArray (v : Option Json) : Option (List String) :=
  match v with
  | some (.arr xs) =>
    let filtered := nonEmptyStringElems xs
    if filtered.length != 0 then some filtered else none
  | _ => none

/-- `output` block of src/types.ts `SecurityConfig`. -/
structure OutputConfig where
  wellKnown : Bool
  root : Bool
deriving DecidableEq, Repr

/-- `policy` block of src/types.ts `SecurityConfig`: the RFC 9116
directives. Optional fields are `Option` (`none` = absent). -/
structure PolicyConfig where
  contact : List String
  expires : String
  encryption : Option String
  acknowledgments : Option String
  preferredLanguages : Option (List String)
  canonical : Option (List String)
  policy : Option String
  hiring : Option String
  csaf : Option String
deriving DecidableEq, Repr

/-- src/types.ts `SecurityConfig`: the validated in-memory entity. -/
structure SecurityConfig where
  enabled : Bool
  output : OutputConfig
  policy : PolicyConfig
deriving DecidableEq, Repr

/-- reader.ts `FALLBACK_CONFIG`: the fail-closed constant returned for any
missing, unreadable or invalid configuration. -/
def FALLBACK_CONFIG : SecurityConfig :=
  { enabled := false
    output := { wellKnown := false, root := false }
    policy :=
      { contact := []
        expires := "1970-01-01T00:00:00.000Z"
        encryption := none
        acknowledgments := none
        preferredLanguages := none
        canonical := none
        policy := none
        hiring := none
        csaf := none } }

/-- reader.ts lines 89–92: `typeof input.enabled === "boolean" ?
input.enabled : FALLBACK_CONFIG.enabled`. -/
def readEnabled (input : Json) : Bool :=
  match input.getField "enabled" with
  | some (.bool b) => b
  | _ => FALLBACK_CONFIG.enabled

/-- reader.ts lines 94–104: each `output` flag is taken only when
`input.output` is an object and the nested field is boolean-typed, else the
fallback's value (`false`); no coercion. -/
def readOutput (input : Json) : OutputConfig :=
  { wellKnown :=
      if isObjectV (input.getField "output") then
        match (input.getField "output").bind (fun o => o.getField "wellKnown") with
        | some (.bool b) => b
        | _ => FALLBACK_CONFIG.output.wellKnown
      else FALLBACK_CONFIG.output.wellKnown
    root :=
      if isObjectV (input.getField "output") then
        match (input.getField "output").bind (fun o => o.getField "root") with
        | some (.bool b) => b
        | _ => FALLBACK_CONFIG.output.root
      else FALLBACK_CONFIG.output.root }

/-- reader.ts lines 114–116: `Array.isArray(input.policy.contact) ?
input.policy.contact.filter(isValidContact) : []`. -/
def readContact (pol : Json) : List String :=
  match pol.getField "contact" with
  | some (.arr xs) => filterContacts xs
  | _ => []

/-- reader.ts lines 118–122: `typeof input.policy.expires === "string" &&
isValidISODate(input.policy.expires) ? input.policy.expires : null`. -/
def readExpires (dp : String → Bool) (pol : Json) : Option String :=
  match pol.getField "expires" with
  | some (.str s) => if dp s then some s else none
  | _ => none

/-- reader.ts `normaliseConfig`: normalise untrusted parsed JSON into a
`SecurityConfig`, failing closed to `FALLBACK_CONFIG`. `dp` is the
`Date.parse`-validity oracle used by `isValidISODate`. The source computes
`enabled` and `output` (both pure) before the `policy` checks; the order
does not affect the result. -/
def normaliseConfig (dp : String → Bool) (input : Json) : SecurityConfig :=
  if !isObject input then FALLBACK_CONFIG
  else
    match input.getField "policy" with
    | some pol =>
      if !isObject pol then FALLBACK_CONFIG
      else
        match readExpires dp pol with
        | none => FALLBACK_CONFIG
        | some expires =>
          if (readContact pol).length == 0 then FALLBACK_CONFIG
          else
            { enabled := readEnabled input
              output := readOutput input
              policy :=
                { contact := readContact pol
                  expires := expires
                  encryption := asOptionalHttps (pol.getField "encryption")
                  acknowledgments := asOptionalHttps (pol.getField "acknowledgments")
                  preferredLanguages := asOptionalStringArray (pol.getField "preferredLanguages")
                  canonical := asOptionalHttpsArray (pol.getField "canonical")
                  policy := asOptionalHttps (pol.getField "policy")
                  hiring := asOptionalHttps (pol.getField "hiring")
                  csaf := asOptionalHttps (pol.getField "csaf") } }
    | none => FALLBACK_CONFIG

/-- The claim-level rejection condition of the Normalizer (spec §4.1 steps
1, 4, 5): the input is not an object, its `policy` field is not an object,
the `contact` array filtered to valid contact URIs is empty, or `expires`
is not a string passing date-time validation. -/
def gateRejects (dp : String → Bool) (input : Json) : Bool :=
  !isObject input
  || match input.getField "policy" with
     | some pol =>
       !isObject pol
       || (readContact pol).length == 0
       || (readExpires dp pol).isNone
     | none => true

/-! ## Document serializer and atomic writer (src/build/generate.ts) -/

/-- JavaScript `Array.prototype.join(sep)`. -/
def joinWith (sep : String) : List String → String
  | [] => ""
  | [x] => x
  | x :: y :: xs => x ++ sep ++ joinWith sep (y :: xs)

/-- One `if (config.policy.X) lines.push(...)` block of generate.ts: the
line is pushed only when the optional value is truthy (present and not the
empty string). -/
def optLine (name : String) (v : Option String) : List String :=
  match v with
  | some s => if isNonEmptyStr s then [name ++ ": " ++ s] else []
  | none => []

/-- generate.ts lines 55–62: the single `Preferred-Languages:` line, pushed
only when the array is present and non-empty, its value the `", "`-joined
tags. -/
def optLangsLine (v : Option (List String)) : List String :=
  match v with
  | some ls => if ls.length != 0 then ["Preferred-Languages: " ++ joinWith ", " ls] else []
  | none => []

/-- generate.ts lines 64–71: one `Canonical:` line per entry, in order,
when the array is present and non-empty. -/
def canonicalLines (v : Option (List String)) : List String :=
  match v with
  | some ls => if ls.length != 0 then ls.map (fun u => "Canonical: " ++ u) else []
  | none => []

/-- The `lines` array generate.ts builds (lines 29–84): `Contact:` lines in
array order, `Expires:`, then each optional directive guarded by JavaScript
truthiness (`undefined` and `""` falsy) or, for the arrays, by
`Array.isArray(·) && ·.length > 0`. -/
def securityTxtLines (c : SecurityConfig) : List String :=
  (c.policy.contact.map fun s => "Contact: " ++ s)
  ++ ["Expires: " ++ c.policy.expires]
  ++ optLine "Encryption" c.policy.encryption
  ++ optLine "Acknowledgments" c.policy.acknowledgments
  ++ optLangsLine c.policy.preferredLanguages
  ++ canonicalLines c.policy.canonical
  ++ optLine "Policy" c.policy.policy
  ++ optLine "Hiring" c.policy.hiring
  ++ optLine "CSAF" c.policy.csaf

/-- generate.ts line 89: `const contents = lines.join("\n") + "\n"`. -/
def securityTxtContents (c : SecurityConfig) : String :=
  joinWith "\n" (securityTxtLines c) ++ "\n"

/-- A filesystem path split as `path.dirname` / `path.basename` split it;
`path.join(dir, name)` re-attaches a name under the same directory. -/
structure FsPath where
  dir : String
  base : String
deriving DecidableEq, Repr

/-- generate.ts `atomicWrite`: the temporary sibling `path.join(dir,
"." + base + ".tmp")` of a target path. -/
def tmpPathOf (target : FsPath) : FsPath :=
  { dir := target.dir, base := "." ++ target.base ++ ".tmp" }

/-- A mutating filesystem operation of the atomic writer. -/
inductive FsOp where
  | write (p : FsPath) (contents : String)
  | rename (src dst : FsPath)
deriving DecidableEq, Repr

/-- Plain files on disk: each path holds a content or nothing. -/
def FsState : Type := FsPath → Option String

/-- Effect of one operation: `writeFileSync` creates/replaces the file;
`renameSync` moves the source's content onto the destination and removes
the source. -/
def applyOp (fs : FsState) : FsOp → FsState
  | .write p c => fun q => if q = p then some c else fs q
  | .rename src dst => fun q => if q = dst then fs src else if q = src then none else fs q

/-- generate.ts `atomicWrite(targetPath, contents)`: write the full content
to the temporary sibling, then rename it onto the target. Returns the final
state and the operations in the order performed. -/
def atomicWrite (fs : FsState) (target : FsPath) (contents : String) : FsState × List FsOp :=
  let tempPath := tmpPathOf target
  let fs1 := applyOp fs (.write tempPath contents)
  let fs2 := applyOp fs1 (.rename tempPath target)
  (fs2, [.write tempPath contents, .rename tempPath target])

/-- The two output locations of generate.ts:
`{outDir}/.well-known/security.txt` and `{outDir}/security.txt`. -/
inductive OutTarget where
  | wellKnown
  | root
deriving DecidableEq, Repr

/-- generate.ts `generateSecurityTxt({outDir, config})`, abstracted over
where the files land: the list of (location, content) writes it performs.
`outDirOk` is the guard `outDir && fs.existsSync(outDir)`; when `enabled`
is false or the guard fails the function returns before building or
writing anything. -/
def generateSecurityTxt (outDirOk : Bool) (config : SecurityConfig) : List (OutTarget × String) :=
  if !config.enabled then []
  else if !outDirOk then []
  else
    (if config.output.wellKnown then [(OutTarget.wellKnown, securityTxtContents config)] else [])
    ++ (if config.output.root then [(OutTarget.root, securityTxtContents config)] else [])

/-! ## Config store (src/config/writer.ts, src/config/reader.ts) -/

/-- The two configuration paths of src/config/paths.ts: `NEW_CONFIG_PATH`
(`config-files/security.config.json`, canonical) and `LEGACY_CONFIG_PATH`
(root-level `security.config.json`). A file content is an arbitrary `α`
(`none` = no file at that path). -/
structure ConfigFs (α : Type) where
  canonical : Option α
  legacy : Option α

/-- A mutating filesystem operation of the config store. -/
inductive ConfigOp where
  | mkdirConfigDir
  | renameLegacyToCanonical
  | createCanonicalExclusive
deriving DecidableEq, Repr

/-- writer.ts `ensureSecurityConfigFile`: ensure the config directory
exists; if the canonical file exists do nothing; else if the legacy file
exists rename it to the canonical path; else create the default config at
the canonical path with the exclusive flag `wx`. `defaultContent` is the
serialized `DEFAULT_CONFIG` text (`JSON.stringify(DEFAULT_CONFIG, null,
2)`). Returns the resulting state and the operations performed. -/
def ensureSecurityConfigFile {α : Type} (defaultContent : α) (s : ConfigFs α) :
    ConfigFs α × List ConfigOp :=
  if s.canonical.isSome then (s, [.mkdirConfigDir])
  else
    match s.legacy with
    | some c => ({ canonical := some c, legacy := none },
                 [.mkdirConfigDir, .renameLegacyToCanonical])
    | none => ({ canonical := some defaultContent, legacy := none },
               [.mkdirConfigDir, .createCanonicalExclusive])

/-- reader.ts `loadSecurityConfig`: reads `path.join(process.cwd(),
"security.config.json")` — the root-level legacy path, the only path the
reader consults (reader.ts lines 44–68 define their own `CONFIG_FILENAME`
and never import `NEW_CONFIG_PATH`). Absent file, or a read/parse failure
(`parse` = `readFileSync` + `JSON.parse`, `none` on failure), yields
`FALLBACK_CONFIG`; otherwise the parsed value goes to `normaliseConfig`. -/
def loadSecurityConfig {α : Type} (parse : α → Option Json) (dp : String → Bool)
    (s : ConfigFs α) : SecurityConfig :=
  match s.legacy with
  | none => FALLBACK_CONFIG
  | some raw =>
    match parse raw with
    | none => FALLBACK_CONFIG
    | some j => normaliseConfig dp j

/-- src/index.ts `astro:build:done` hook body: load the config, return
without generating unless `config.enabled === true`, else call
`generateSecurityTxt`. Result: the (location, content) writes performed. -/
def buildDoneHook {α : Type} (parse : α → Option Json) (dp : String → Bool)
    (s : ConfigFs α) (outDirOk : Bool) : List (OutTarget × String) :=
  let config := loadSecurityConfig parse dp s
  if config.enabled != true then []
  else generateSecurityTxt outDirOk config

/-- writer.ts `DEFAULT_CONFIG`: the fully-populated scaffold written on
first run. -/
def DEFAULT_CONFIG : SecurityConfig :=
  { enabled := true
    output := { wellKnown := true, root := true }
    policy :=
      { contact := ["mailto:security@example.com"]
        expires := "2026-12-31T18:37:07.000Z"
        encryption := some "https://example.com/.well-known/pgp-key.txt"
        acknowledgments := some "https://example.com/security/thanks"
        preferredLanguages := some ["en"]
        canonical := some ["https://example.com/.well-known/security.txt",
                           "https://example.com/security.txt"]
        policy := some "https://example.com/security"
        hiring := some "https://example.com/careers/security"
        csaf := some "https://example.com/.well-known/csaf/provider-metadata.json" } }

/-- The `policy` member of writer.ts `DEFAULT_CONFIG` as a parsed JSON
value. -/
def DEFAULT_POLICY_JSON : Json :=
  .obj
    [("contact", .arr [.str "mailto:security@example.com"]),
     ("expires", .str "2026-12-31T18:37:07.000Z"),
     ("encryption", .str "https://example.com/.well-known/pgp-key.txt"),
     ("acknowledgments", .str "https://example.com/security/thanks"),
     ("preferredLanguages", .arr [.str "en"]),
     ("canonical", .arr [.str "https://example.com/.well-known/security.txt",
                         .str "https://example.com/security.txt"]),
     ("policy", .str "https://example.com/security"),
     ("hiring", .str "https://example.com/careers/security"),
     ("csaf", .str "https://example.com/.well-known/csaf/provider-metadata.json")]

/-- The JSON value `JSON.parse(JSON.stringify(DEFAULT_CONFIG, null, 2))`,
i.e. the writer.ts `DEFAULT_CONFIG` object literal as a parsed JSON value
(stringify-then-parse is the identity on this object: it has no
`undefined`, function or non-finite members). -/
def DEFAULT_CONFIG_JSON : Json :=
  .obj
    [("enabled", .bool true),
     ("output", .obj [("wellKnown", .bool true), ("root", .bool true)]),
     ("policy", DEFAULT_POLICY_JSON)]

/-- A concrete `Date.parse`-validity oracle used to instantiate witnesses:
accepts exactly the two date strings used by the scaffold and the tests. -/
def dp0 : String → Bool := fun s =>
  s == "2026-12-31T18:37:07.000Z" || s == "1970-01-01T00:00:00.000Z"

/-! ## Claim-level predicates -/

/-- The string contains no newline character. -/
def noNl (s : String) : Bool :=
  s.data.all fun ch => ch != '\n'

/-- Every field value of the config is free of newline characters. -/
def configNoNewlines (c : SecurityConfig) : Bool :=
  c.policy.contact.all noNl
  && noNl c.policy.expires
  && (match c.policy.encryption with | some s => noNl s | none => true)
  && (match c.policy.acknowledgments with | some s => noNl s | none => true)
  && (match c.policy.preferredLanguages with | some ls => ls.all noNl | none => true)
  && (match c.policy.canonical with | some ls => ls.all noNl | none => true)
  && (match c.policy.policy with | some s => noNl s | none => true)
  && (match c.policy.hiring with | some s => noNl s | none => true)
  && (match c.policy.csaf with | some s => noNl s | none => true)

/-- How many `'\n'` characters the text ends with. "Ends with exactly one
trailing newline" is `trailingNewlineCount = 1`. -/
def trailingNewlineCount (s : String) : Nat :=
  (s.data.reverse.takeWhile fun ch => ch == '\n').length

/-- Spec §3 invariant: an enabled config carries the two RFC-required
directives — a non-empty `contact` and a set (non-empty, date-parseable)
`expires`. -/
def RequiredInvariant (dp : String → Bool) (c : SecurityConfig) : Prop :=
  c.enabled = true →
    c.policy.contact ≠ [] ∧ c.policy.expires ≠ "" ∧ dp c.policy.expires = true

/-- The RFC 9116 directive names generate.ts can emit. -/
def directiveNames : List String :=
  ["Contact", "Expires", "Encryption", "Acknowledgments", "Preferred-Languages",
   "Canonical", "Policy", "Hiring", "CSAF"]

/-- A configuration file whose `csaf` value ends in a newline character: it
passes the normalizer (non-empty, `https://`-prefixed) with `enabled`
true. -/
def badNewlineInput : Json :=
  .obj
    [("enabled", .bool true),
     ("policy", .obj
       [("contact", .arr [.str "mailto:security@example.com"]),
        ("expires", .str "2026-12-31T18:37:07.000Z"),
        ("csaf", .str "https://example.com/csaf\n")])]

/-- The field-preservation contract of the Normalizer on gate-passing input
(spec §4.1 steps 5–6): `contact` is the input array's string entries
filtered — in order — by the contact predicate; `expires` is the validated
string; each optional scalar is kept with its exact value iff it is a
non-empty `https://`-prefixed string; `preferredLanguages` (resp.
`canonical`) is kept iff filtering its array to non-empty (resp. non-empty
`https://`-prefixed) strings leaves a non-empty list, and then holds
exactly that filtered list; everything else is omitted, never defaulted. -/
def PreservesValidFields (dp : String → Bool) (input pol : Json) (e : String) : Prop :=
  (∀ xs, pol.getField "contact" = some (.arr xs) →
    (normaliseConfig dp input).policy.contact = (jsonStringElems xs).filter isValidContactS)
  ∧ (normaliseConfig dp input).policy.expires = e
  ∧ (∀ s, (normaliseConfig dp input).policy.encryption = some s ↔
      pol.getField "encryption" = some (.str s) ∧ isNonEmptyStr s = true
        ∧ jsStartsWith s "https://" = true)
  ∧ (∀ s, (normaliseConfig dp input).policy.acknowledgments = some s ↔
      pol.getField "acknowledgments" = some (.str s) ∧ isNonEmptyStr s = true
        ∧ jsStartsWith s "https://" = true)
  ∧ (∀ ls, (normaliseConfig dp input).policy.preferredLanguages = some ls ↔
      ∃ xs, pol.getField "preferredLanguages" = some (.arr xs)
        ∧ ls = nonEmptyStringElems xs ∧ ls ≠ [])
  ∧ (∀ ls, (normaliseConfig dp input).policy.canonical = some ls ↔
      ∃ xs, pol.getField "canonical" = some (.arr xs)
        ∧ ls = httpsStringElems xs ∧ ls ≠ [])
  ∧ (∀ s, (normaliseConfig dp input).policy.policy = some s ↔
      pol.getField "policy" = some (.str s) ∧ isNonEmptyStr s = true
        ∧ jsStartsWith s "https://" = true)
  ∧ (∀ s, (normaliseConfig dp input).policy.hiring = some s ↔
      pol.getField "hiring" = some (.str s) ∧ isNonEmptyStr s = true
        ∧ jsStartsWith s "https://" = true)
  ∧ (∀ s, (normaliseConfig dp input).policy.csaf = some s ↔
      pol.getField "csaf" = some (.str s) ∧ isNonEmptyStr s = true
        ∧ jsStartsWith s "https://" = true)

/-- The serializer contract of spec §4.3 for one config: the text is the
directive lines joined by `"\n"` plus a final newline; the lines are, in
this fixed order, one `Contact:` per entry in array order, exactly one
`Expires:`, then each present optional directive (`Encryption:`,
`Acknowledgments:`, one comma-and-space-joined `Preferred-Languages:`, one
`Canonical:` per entry in order, `Policy:`, `Hiring:`, `CSAF:`); every line
is `Name: value` with a non-empty value and a known directive name; and the
text ends with exactly one trailing newline. -/
def SerializesFixedOrder (c : SecurityConfig) : Prop :=
  securityTxtContents c = joinWith "\n" (securityTxtLines c) ++ "\n"
  ∧ securityTxtLines c =
      (c.policy.contact.map fun s => "Contact: " ++ s)
      ++ ["Expires: " ++ c.policy.expires]
      ++ (c.policy.encryption.toList.map fun s => "Encryption: " ++ s)
      ++ (c.policy.acknowledgments.toList.map fun s => "Acknowledgments: " ++ s)
      ++ (c.policy.preferredLanguages.toList.map fun ls =>
            "Preferred-Languages: " ++ joinWith ", " ls)
      ++ ((c.policy.canonical.getD []).map fun u => "Canonical: " ++ u)
      ++ (c.policy.policy.toList.map fun s => "Policy: " ++ s)
      ++ (c.policy.hiring.toList.map fun s => "Hiring: " ++ s)
      ++ (c.policy.csaf.toList.map fun s => "CSAF: " ++ s)
  ∧ (∀ line ∈ securityTxtLines c, ∃ name v,
      line = name ++ ": " ++ v ∧ v ≠ "" ∧ name ∈ directiveNames)
  ∧ trailingNewlineCount (securityTxtContents c) = 1

/-! ## Normalizer lemmas -/

theorem readExpires_eq_some (dp : String → Bool) (pol : Json) (e : String) :
    readExpires dp pol = some e ↔
      pol.getField "expires" = some (.str e) ∧ dp e = true := by
  unfold readExpires
  cases hf : pol.getField "expires" with
  | none => simp
  | some j =>
    cases j with
    | str s =>
      by_cases hdp : dp s
      · simp only [hdp, if_true, Option.some.injEq, Json.str.injEq]
        constructor
        · rintro rfl; exact ⟨rfl, hdp⟩
        · rintro ⟨rfl, _⟩; rfl
      · simp only [hdp, if_false]
        constructor
        · rintro ⟨⟩
        · rintro ⟨he, hdpe⟩
          cases he; exact absurd hdpe hdp
    | null => simp
    | bool b => simp
    | num n => simp
    | arr xs => simp
    | obj fields => simp

/-- The success branch of reader.ts `normaliseConfig`: when the input and
its `policy` are objects, `expires` validates and the filtered `contact`
list is non-empty, the result is assembled field by field. -/
theorem normaliseConfig_gate_passes (dp : String → Bool) (input pol : Json) (e : String)
    (hobj : isObject input = true)
    (hpol : input.getField "policy" = some pol)
    (hpobj : isObject pol = true)
    (hexp : readExpires dp pol = some e)
    (hc : readContact pol ≠ []) :
    normaliseConfig dp input =
      { enabled := readEnabled input
        output := readOutput input
        policy :=
          { contact := readContact pol
            expires := e
            encryption := asOptionalHttps (pol.getField "encryption")
            acknowledgments := asOptionalHttps (pol.getField "acknowledgments")
            preferredLanguages := asOptionalStringArray (pol.getField "preferredLanguages")
            canonical := asOptionalHttpsArray (pol.getField "canonical")
            policy := asOptionalHttps (pol.getField "policy")
            hiring := asOptionalHttps (pol.getField "hiring")
            csaf := asOptionalHttps (pol.getField "csaf") } } := by
  have hlen : ((readContact pol).length == 0) = false := by
    cases hrc : readContact pol with
    | nil => exact absurd hrc hc
    | cons a l => simp
  unfold normaliseConfig
  simp [hobj, hpol, hpobj, hexp, hlen]

/-- reader.ts `normaliseConfig` returns `FALLBACK_CONFIG` exactly when the
claim's rejection condition holds. -/
theorem normalise_eq_fallback_iff (dp : String → Bool) (input : Json) :
    normaliseConfig dp input = FALLBACK_CONFIG ↔ gateRejects dp input = true := by
  by_cases hobj : isObject input = true
  case neg =>
    simp only [Bool.not_eq_true] at hobj
    unfold normaliseConfig gateRejects
    simp [hobj]
  case pos =>
  cases hpol : input.getField "policy" with
  | none =>
    unfold normaliseConfig gateRejects
    simp [hobj, hpol]
  | some pol =>
    by_cases hpobj : isObject pol = true
    case neg =>
      simp only [Bool.not_eq_true] at hpobj
      unfold normaliseConfig gateRejects
      simp [hobj, hpol, hpobj]
    case pos =>
    cases hexp : readExpires dp pol with
    | none =>
      unfold normaliseConfig gateRejects
      simp [hobj, hpol, hpobj, hexp]
    | some e =>
      cases hrc : readContact pol with
      | nil =>
        unfold normaliseConfig gateRejects
        simp [hobj, hpol, hpobj, hexp, hrc]
      | cons a l =>
        have hc : readContact pol ≠ [] := by simp [hrc]
        rw [normaliseConfig_gate_passes dp input pol e hobj hpol hpobj hexp hc]
        unfold gateRejects
        simp [hobj, hpol, hpobj, hexp, hrc, FALLBACK_CONFIG]

theorem gateRejects_eq_false_iff (dp : String → Bool) (input : Json) :
    gateRejects dp input = false ↔
      isObject input = true ∧
        ∃ pol, input.getField "policy" = some pol ∧ isObject pol = true ∧
          readContact pol ≠ [] ∧ ∃ e, readExpires dp pol = some e := by
  unfold gateRejects
  cases hobj : isObject input with
  | false => simp
  | true =>
    cases hpol : input.getField "policy" with
    | none => simp
    | some pol =>
      cases hpobj : isObject pol with
      | false => simp [hpobj]
      | true =>
        cases hexp : readExpires dp pol with
        | none => simp [hpobj, hexp]
        | some e =>
          cases hrc : readContact pol with
          | nil => simp [hpobj, hexp, hrc]
          | cons a l => simp [hpobj, hexp, hrc]

theorem asOptionalHttps_eq_some (v : Option Json) (s : String) :
    asOptionalHttps v = some s ↔
      v = some (.str s) ∧ isNonEmptyStr s = true ∧ jsStartsWith s "https://" = true := by
  unfold asOptionalHttps
  cases v with
  | none => simp
  | some j =>
    cases j with
    | str t =>
      by_cases hg : (isNonEmptyStr t && jsStartsWith t "https://") = true
      · have h12 := Bool.and_eq_true _ _ |>.mp hg
        simp only [hg, if_true, Option.some.injEq, Json.str.injEq]
        constructor
        · rintro rfl
          exact ⟨rfl, h12.1, h12.2⟩
        · rintro ⟨rfl, _, _⟩; rfl
      · rw [Bool.not_eq_true] at hg
        constructor
        · intro h
          exfalso
          simp [hg] at h
        · rintro ⟨he, h1, h2⟩
          cases he
          rw [h1, h2] at hg
          simp at hg
    | null => simp
    | bool b => simp
    | num n => simp
    | arr xs => simp
    | obj fields => simp


theorem asOptionalHttpsArray_eq_some (v : Option Json) (ls : List String) :
    asOptionalHttpsArray v = some ls ↔
      ∃ xs, v = some (.arr xs) ∧ ls = httpsStringElems xs ∧ ls ≠ [] := by
  unfold asOptionalHttpsArray
  cases v with
  | none => simp
  | some j =>
    cases j with
    | arr xs =>
      show (if (httpsStringElems xs).length != 0 then some (httpsStringElems xs) else none)
          = some ls ↔ _
      cases hf : httpsStringElems xs with
      | nil =>
        constructor
        · intro h; simp at h
        · rintro ⟨ys, hys, hls, hne⟩
          simp only [Option.some.injEq, Json.arr.injEq] at hys
          subst hys
          rw [hf] at hls
          exact absurd hls hne
      | cons a l =>
        constructor
        · intro h
          simp at h
          subst h
          exact ⟨xs, rfl, hf.symm, by simp⟩
        · rintro ⟨ys, hys, hls, hne⟩
          simp only [Option.some.injEq, Json.arr.injEq] at hys
          subst hys
          rw [hf] at hls
          subst hls
          simp
    | null => simp
    | bool b => simp
    | num n => simp
    | str t => simp
    | obj fields => simp

theorem asOptionalStringArray_eq_some (v : Option Json) (ls : List String) :
    asOptionalStringArray v = some ls ↔
      ∃ xs, v = some (.arr xs) ∧ ls = nonEmptyStringElems xs ∧ ls ≠ [] := by
  unfold asOptionalStringArray
  cases v with
  | none => simp
  | some j =>
    cases j with
    | arr xs =>
      show (if (nonEmptyStringElems xs).length != 0 then some (nonEmptyStringElems xs) else none)
          = some ls ↔ _
      cases hf : nonEmptyStringElems xs with
      | nil =>
        constructor
        · intro h; simp at h
        · rintro ⟨ys, hys, hls, hne⟩
          simp only [Option.some.injEq, Json.arr.injEq] at hys
          subst hys
          rw [hf] at hls
          exact absurd hls hne
      | cons a l =>
        constructor
        · intro h
          simp at h
          subst h
          exact ⟨xs, rfl, hf.symm, by simp⟩
        · rintro ⟨ys, hys, hls, hne⟩
          simp only [Option.some.injEq, Json.arr.injEq] at hys
          subst hys
          rw [hf] at hls
          subst hls
          simp
    | null => simp
    | bool b => simp
    | num n => simp
    | str t => simp
    | obj fields => simp

theorem filterContacts_eq_filter (xs : List Json) :
    filterContacts xs = (jsonStringElems xs).filter isValidContactS := by
  induction xs with
  | nil => rfl
  | cons x xs ih =>
    cases x with
    | str s =>
      by_cases hv : isValidContactS s = true
      · simp [filterContacts, jsonStringElems, hv, List.filter_cons] at *
        simpa [filterContacts, jsonStringElems] using ih
      · simp only [Bool.not_eq_true] at hv
        simp [filterContacts, jsonStringElems, hv, List.filter_cons] at *
        simpa [filterContacts, jsonStringElems] using ih
    | null => simpa [filterContacts, jsonStringElems] using ih
    | bool b => simpa [filterContacts, jsonStringElems] using ih
    | num n => simpa [filterContacts, jsonStringElems] using ih
    | arr ys => simpa [filterContacts, jsonStringElems] using ih
    | obj fields => simpa [filterContacts, jsonStringElems] using ih

theorem mem_filterContacts {xs : List Json} {s : String}
    (h : s ∈ filterContacts xs) : isValidContactS s = true := by
  rw [filterContacts_eq_filter] at h
  exact List.of_mem_filter h

theorem mem_httpsStringElems {xs : List Json} {s : String}
    (h : s ∈ httpsStringElems xs) :
    isNonEmptyStr s = true ∧ jsStartsWith s "https://" = true := by
  unfold httpsStringElems at h
  rcases List.mem_filterMap.mp h with ⟨v, _, hv⟩
  split at hv
  next t =>
    split at hv
    next hg =>
      cases hv
      simpa using hg
    next hg => cases hv
  next => cases hv

theorem mem_nonEmptyStringElems {xs : List Json} {s : String}
    (h : s ∈ nonEmptyStringElems xs) : isNonEmptyStr s = true := by
  unfold nonEmptyStringElems at h
  rcases List.mem_filterMap.mp h with ⟨v, _, hv⟩
  split at hv
  next t =>
    split at hv
    next hg =>
      cases hv
      simpa using hg
    next hg => cases hv
  next => cases hv

theorem mem_readContact {pol : Json} {s : String}
    (h : s ∈ readContact pol) : isValidContactS s = true := by
  unfold readContact at h
  split at h
  · exact mem_filterContacts h
  · cases h

theorem string_length_eq_zero_iff {s : String} : s.length = 0 ↔ s = "" := by
  constructor
  · intro h
    have hd : s.data = [] := List.length_eq_zero.mp h
    cases s with
    | mk data => cases hd; rfl
  · rintro rfl; rfl

theorem isNonEmptyStr_iff {s : String} : isNonEmptyStr s = true ↔ s ≠ "" := by
  unfold isNonEmptyStr
  rw [bne_iff_ne]
  constructor
  · intro h he
    exact h (string_length_eq_zero_iff.mpr he)
  · intro h hl
    exact h (string_length_eq_zero_iff.mp hl)

/-- Facts every enabled output of the normalizer satisfies: the gate
passed, so `contact` is a non-empty list of valid contact URIs, `expires`
is a non-empty date-valid string, and every retained optional value is a
non-empty string (list of non-empty strings). -/
theorem normalise_enabled_invariants (dp : String → Bool) (input : Json)
    (c : SecurityConfig)
    (hnorm : normaliseConfig dp input = c)
    (hen : c.enabled = true)
    (hdpe : dp "" = false) :
    c.policy.contact ≠ []
    ∧ (∀ s ∈ c.policy.contact, isValidContactS s = true)
    ∧ isNonEmptyStr c.policy.expires = true
    ∧ dp c.policy.expires = true
    ∧ (∀ s, c.policy.encryption = some s → isNonEmptyStr s = true)
    ∧ (∀ s, c.policy.acknowledgments = some s → isNonEmptyStr s = true)
    ∧ (∀ ls, c.policy.preferredLanguages = some ls →
        ls ≠ [] ∧ ∀ s ∈ ls, isNonEmptyStr s = true)
    ∧ (∀ ls, c.policy.canonical = some ls →
        ls ≠ [] ∧ ∀ s ∈ ls, isNonEmptyStr s = true)
    ∧ (∀ s, c.policy.policy = some s → isNonEmptyStr s = true)
    ∧ (∀ s, c.policy.hiring = some s → isNonEmptyStr s = true)
    ∧ (∀ s, c.policy.csaf = some s → isNonEmptyStr s = true) := by
  have hnf : normaliseConfig dp input ≠ FALLBACK_CONFIG := by
    rw [hnorm]
    intro h
    rw [h] at hen
    simp [FALLBACK_CONFIG] at hen
  have hgr : gateRejects dp input = false := by
    cases hg : gateRejects dp input
    · rfl
    · exact absurd ((normalise_eq_fallback_iff dp input).mpr hg) hnf
  rcases (gateRejects_eq_false_iff dp input).mp hgr with
    ⟨hobj, pol, hpol, hpobj, hc, e, hexp⟩
  have hshape := normaliseConfig_gate_passes dp input pol e hobj hpol hpobj hexp hc
  rw [hnorm] at hshape
  subst hshape
  have hdp_e : dp e = true := ((readExpires_eq_some dp pol e).mp hexp).2
  have hce : isNonEmptyStr e = true := by
    rw [isNonEmptyStr_iff]
    rintro rfl
    rw [hdpe] at hdp_e
    cases hdp_e
  refine ⟨hc, ?_, hce, hdp_e, ?_, ?_, ?_, ?_, ?_, ?_, ?_⟩
  · intro s hs
    exact mem_readContact hs
  · intro s hs
    exact ((asOptionalHttps_eq_some _ s).mp hs).2.1
  · intro s hs
    exact ((asOptionalHttps_eq_some _ s).mp hs).2.1
  · intro ls hls
    rcases (asOptionalStringArray_eq_some _ ls).mp hls with ⟨xs, _, rfl, hne⟩
    exact ⟨hne, fun s hs => mem_nonEmptyStringElems hs⟩
  · intro ls hls
    rcases (asOptionalHttpsArray_eq_some _ ls).mp hls with ⟨xs, _, rfl, hne⟩
    exact ⟨hne, fun s hs => (mem_httpsStringElems hs).1⟩
  · intro s hs
    exact ((asOptionalHttps_eq_some _ s).mp hs).2.1
  · intro s hs
    exact ((asOptionalHttps_eq_some _ s).mp hs).2.1
  · intro s hs
    exact ((asOptionalHttps_eq_some _ s).mp hs).2.1

/-! ## String and join lemmas for the serializer -/

theorem noNl_iff (s : String) : noNl s = true ↔ ∀ ch ∈ s.data, ch ≠ '\n' := by
  unfold noNl
  rw [List.all_eq_true]
  constructor
  · intro h ch hch
    simpa using h ch hch
  · intro h ch hch
    simpa using h ch hch

theorem noNl_append {a b : String} (ha : noNl a = true) (hb : noNl b = true) :
    noNl (a ++ b) = true := by
  unfold noNl at *
  rw [String.data_append, List.all_append, ha, hb]
  rfl

theorem joinWith_cons_cons (sep x y : String) (xs : List String) :
    joinWith sep (x :: y :: xs) = x ++ sep ++ joinWith sep (y :: xs) := rfl

theorem joinWith_cons_length (sep x : String) (xs : List String) :
    x.length ≤ (joinWith sep (x :: xs)).length := by
  cases xs with
  | nil => simp [joinWith]
  | cons y ys =>
    rw [joinWith_cons_cons, String.length_append, String.length_append]
    omega

theorem joinWith_ne_empty {sep x : String} (hx : x ≠ "") (xs : List String) :
    joinWith sep (x :: xs) ≠ "" := by
  intro h
  have h1 := joinWith_cons_length sep x xs
  rw [h, show ("" : String).length = 0 from rfl] at h1
  exact hx (string_length_eq_zero_iff.mp (Nat.le_zero.mp h1))

theorem noNl_joinWith {sep : String} {ls : List String}
    (hsep : noNl sep = true) (h : ∀ l ∈ ls, noNl l = true) :
    noNl (joinWith sep ls) = true := by
  induction ls with
  | nil => rfl
  | cons x xs ih =>
    cases xs with
    | nil => exact h x (List.mem_cons_self _ _)
    | cons y ys =>
      rw [joinWith_cons_cons]
      refine noNl_append (noNl_append (h x (List.mem_cons_self _ _)) hsep) ?_
      exact ih fun l hl => h l (List.mem_cons_of_mem _ hl)

theorem trailingNewlineCount_append_newline (s : String) :
    trailingNewlineCount (s ++ "\n") = trailingNewlineCount s + 1 := by
  unfold trailingNewlineCount
  rw [String.data_append, show ("\n" : String).data = ['\n'] from rfl,
      List.reverse_append]
  simp [List.takeWhile_cons]

theorem trailingNewlineCount_eq_zero_of_noNl {s : String} (h : noNl s = true) :
    trailingNewlineCount s = 0 := by
  unfold trailingNewlineCount
  cases hd : s.data.reverse with
  | nil => simp [hd]
  | cons c rest =>
    have hc : c ∈ s.data := by
      have : c ∈ s.data.reverse := by
        rw [hd]
        exact List.mem_cons_self _ _
      simpa using this
    have hcn : c ≠ '\n' := (noNl_iff s).mp h c hc
    rw [List.takeWhile_cons, if_neg (by simpa using hcn)]
    rfl

theorem trailingNewlineCount_append_zero {a b : String}
    (hne : b ≠ "") (h : trailingNewlineCount b = 0) :
    trailingNewlineCount (a ++ b) = 0 := by
  unfold trailingNewlineCount at *
  rw [String.data_append, List.reverse_append]
  cases hd : b.data.reverse with
  | nil =>
    exfalso
    apply hne
    apply string_length_eq_zero_iff.mp
    show b.data.length = 0
    rw [← List.length_reverse, hd]
    rfl
  | cons c rest =>
    rw [hd] at h
    by_cases hc : (c == '\n') = true
    · rw [List.takeWhile_cons, if_pos hc] at h
      simp at h
    · rw [List.cons_append, List.takeWhile_cons, if_neg hc]
      rfl

theorem trailingNewlineCount_joinWith {lines : List String}
    (h : ∀ l ∈ lines, noNl l = true ∧ l ≠ "") :
    trailingNewlineCount (joinWith "\n" lines) = 0 := by
  induction lines with
  | nil => rfl
  | cons x xs ih =>
    cases xs with
    | nil => exact trailingNewlineCount_eq_zero_of_noNl (h x (List.mem_cons_self _ _)).1
    | cons y ys =>
      rw [joinWith_cons_cons]
      have hy : joinWith "\n" (y :: ys) ≠ "" :=
        joinWith_ne_empty (h y (by simp)).2 ys
      have hz : trailingNewlineCount (joinWith "\n" (y :: ys)) = 0 :=
        ih fun l hl => h l (List.mem_cons_of_mem _ hl)
      exact trailingNewlineCount_append_zero hy hz

/-! ## Serializer segment lemmas -/

theorem optLine_eq (name : String) (v : Option String)
    (h : ∀ s, v = some s → isNonEmptyStr s = true) :
    optLine name v = v.toList.map fun s => name ++ ": " ++ s := by
  cases hv : v with
  | none => rfl
  | some s =>
    show (if isNonEmptyStr s then [name ++ ": " ++ s] else [])
        = List.map (fun s => name ++ ": " ++ s) (some s).toList
    rw [if_pos (h s hv)]
    rfl

theorem optLangsLine_eq (v : Option (List String))
    (h : ∀ ls, v = some ls → ls ≠ []) :
    optLangsLine v =
      v.toList.map fun ls => "Preferred-Languages: " ++ joinWith ", " ls := by
  cases hv : v with
  | none => rfl
  | some ls =>
    show (if ls.length != 0 then ["Preferred-Languages: " ++ joinWith ", " ls] else [])
        = List.map (fun ls => "Preferred-Languages: " ++ joinWith ", " ls) (some ls).toList
    have hlen : (ls.length != 0) = true := by
      have := h ls hv
      simp [List.length_eq_zero, this]
    rw [if_pos hlen]
    rfl

theorem canonicalLines_eq (v : Option (List String)) :
    canonicalLines v = (v.getD []).map fun u => "Canonical: " ++ u := by
  cases v with
  | none => rfl
  | some ls =>
    show (if ls.length != 0 then ls.map (fun u => "Canonical: " ++ u) else [])
        = List.map (fun u => "Canonical: " ++ u) ((some ls).getD [])
    cases ls with
    | nil => rfl
    | cons a l =>
      rw [if_pos (by simp)]
      rfl

theorem mem_optLine {name line : String} {v : Option String}
    (h : line ∈ optLine name v) :
    ∃ s, v = some s ∧ line = name ++ ": " ++ s ∧ isNonEmptyStr s = true := by
  unfold optLine at h
  split at h
  next s =>
    split at h
    next hg =>
      rcases List.mem_singleton.mp h with rfl
      exact ⟨s, rfl, rfl, hg⟩
    next => cases h
  next => cases h

theorem mem_optLangsLine {line : String} {v : Option (List String)}
    (h : line ∈ optLangsLine v) :
    ∃ ls, v = some ls ∧ ls ≠ [] ∧
      line = "Preferred-Languages: " ++ joinWith ", " ls := by
  unfold optLangsLine at h
  split at h
  next ls =>
    split at h
    next hg =>
      rcases List.mem_singleton.mp h with rfl
      refine ⟨ls, rfl, ?_, rfl⟩
      intro hnil
      subst hnil
      simp at hg
    next => cases h
  next => cases h

theorem mem_canonicalLines {line : String} {v : Option (List String)}
    (h : line ∈ canonicalLines v) :
    ∃ ls u, v = some ls ∧ u ∈ ls ∧ line = "Canonical: " ++ u := by
  unfold canonicalLines at h
  split at h
  next ls =>
    split at h
    next =>
      rcases List.mem_map.mp h with ⟨u, hu, rfl⟩
      exact ⟨ls, u, rfl, hu, rfl⟩
    next => cases h
  next => cases h

theorem configNoNewlines_fields {c : SecurityConfig}
    (h : configNoNewlines c = true) :
    (∀ s ∈ c.policy.contact, noNl s = true)
    ∧ noNl c.policy.expires = true
    ∧ (∀ s, c.policy.encryption = some s → noNl s = true)
    ∧ (∀ s, c.policy.acknowledgments = some s → noNl s = true)
    ∧ (∀ ls, c.policy.preferredLanguages = some ls → ∀ s ∈ ls, noNl s = true)
    ∧ (∀ ls, c.policy.canonical = some ls → ∀ s ∈ ls, noNl s = true)
    ∧ (∀ s, c.policy.policy = some s → noNl s = true)
    ∧ (∀ s, c.policy.hiring = some s → noNl s = true)
    ∧ (∀ s, c.policy.csaf = some s → noNl s = true) := by
  unfold configNoNewlines at h
  simp only [Bool.and_eq_true] at h
  obtain ⟨⟨⟨⟨⟨⟨⟨⟨h1, h2⟩, h3⟩, h4⟩, h5⟩, h6⟩, h7⟩, h8⟩, h9⟩ := h
  refine ⟨fun s hs => List.all_eq_true.mp h1 s hs, h2, ?_, ?_, ?_, ?_, ?_, ?_, ?_⟩
  · intro s hs; rw [hs] at h3; exact h3
  · intro s hs; rw [hs] at h4; exact h4
  · intro ls hls; rw [hls] at h5; exact fun s hs => List.all_eq_true.mp h5 s hs
  · intro ls hls; rw [hls] at h6; exact fun s hs => List.all_eq_true.mp h6 s hs
  · intro s hs; rw [hs] at h7; exact h7
  · intro s hs; rw [hs] at h8; exact h8
  · intro s hs; rw [hs] at h9; exact h9

/-! ## Claim theorems -/

/-- C2: for every JSON value, `normaliseConfig` returns the Fallback
Config in full — `enabled` false, both outputs false, empty contact, epoch
expiry — exactly when the input is not an object, its `policy` field is
not an object, the filtered `contact` sequence is empty, or `expires` is
not a string passing date-time validation; it is a total function, so it
never throws. -/
theorem normalise_fallback_iff_gate_rejects (dp : String → Bool) (input : Json) :
    (normaliseConfig dp input = FALLBACK_CONFIG ↔ gateRejects dp input = true)
    ∧ FALLBACK_CONFIG.enabled = false
    ∧ FALLBACK_CONFIG.output.wellKnown = false
    ∧ FALLBACK_CONFIG.output.root = false
    ∧ FALLBACK_CONFIG.policy.contact = []
    ∧ FALLBACK_CONFIG.policy.expires = "1970-01-01T00:00:00.000Z" :=
  ⟨normalise_eq_fallback_iff dp input, rfl, rfl, rfl, rfl, rfl⟩

/-- C4: starting from a legacy-only state, `ensureSecurityConfigFile`
leaves no file at the legacy path and the canonical path holds exactly the
prior legacy content, performed as a single rename (the operation trace is
`mkdir` then one `rename` — no copy, write or delete); and when a
canonical file already exists the state is returned untouched, whether or
not a legacy file is also present. -/
theorem ensure_migrates_and_never_overwrites {α : Type} (d : α) (s : ConfigFs α)
    (v w : α) :
    (s.canonical = none → s.legacy = some v →
      (ensureSecurityConfigFile d s).1.canonical = some v
      ∧ (ensureSecurityConfigFile d s).1.legacy = none
      ∧ (ensureSecurityConfigFile d s).2 =
          [ConfigOp.mkdirConfigDir, ConfigOp.renameLegacyToCanonical])
    ∧ (s.canonical = some w →
      (ensureSecurityConfigFile d s).1 = s
      ∧ (ensureSecurityConfigFile d s).2 = [ConfigOp.mkdirConfigDir]) := by
  obtain ⟨co, le⟩ := s
  constructor
  · rintro rfl rfl
    exact ⟨rfl, rfl, rfl⟩
  · rintro rfl
    exact ⟨rfl, rfl⟩

/-- Witness for C4 at concrete states: a legacy-only store migrates by one
rename; a store with a canonical file (and a stale legacy file beside it)
is untouched. -/
theorem ensure_migrates_and_never_overwrites_witness :
    ((ensureSecurityConfigFile Json.null
        { canonical := none, legacy := some (Json.bool true) }).1.canonical
          = some (Json.bool true)
     ∧ (ensureSecurityConfigFile Json.null
        { canonical := none, legacy := some (Json.bool true) }).1.legacy = none
     ∧ (ensureSecurityConfigFile Json.null
        { canonical := none, legacy := some (Json.bool true) }).2 =
          [ConfigOp.mkdirConfigDir, ConfigOp.renameLegacyToCanonical])
    ∧ ((ensureSecurityConfigFile Json.null
        { canonical := some (Json.bool false), legacy := some (Json.bool true) }).1
          = { canonical := some (Json.bool false), legacy := some (Json.bool true) }
       ∧ (ensureSecurityConfigFile Json.null
        { canonical := some (Json.bool false), legacy := some (Json.bool true) }).2
          = [ConfigOp.mkdirConfigDir]) :=
  ⟨(ensure_migrates_and_never_overwrites Json.null
      { canonical := none, legacy := some (Json.bool true) }
      (Json.bool true) Json.null).1 rfl rfl,
   (ensure_migrates_and_never_overwrites Json.null
      { canonical := some (Json.bool false), legacy := some (Json.bool true) }
      Json.null (Json.bool false)).2 rfl⟩

/-- C9: `ensureSecurityConfigFile` is idempotent — a second run directly
after any first run finds the canonical file present, changes nothing and
performs no file mutation (its trace is the unconditional `mkdir` only). -/
theorem ensure_idempotent {α : Type} (d : α) (s : ConfigFs α) :
    ensureSecurityConfigFile d (ensureSecurityConfigFile d s).1
      = ((ensureSecurityConfigFile d s).1, [ConfigOp.mkdirConfigDir]) := by
  obtain ⟨co, le⟩ := s
  cases co <;> cases le <;> rfl

/-- C8: `atomicWrite` writes the full content to the temporary sibling in
the target's own directory, then renames it onto the target in one step —
exactly these two operations in this order. Afterwards the target holds
exactly the intended content and no temporary file remains; and a crash
right before the rename (only the first operation applied) leaves the
target exactly as it was. -/
theorem atomicWrite_correct (fs : FsState) (target : FsPath) (contents : String) :
    (atomicWrite fs target contents).1 target = some contents
    ∧ (atomicWrite fs target contents).1 (tmpPathOf target) = none
    ∧ (tmpPathOf target).dir = target.dir
    ∧ (atomicWrite fs target contents).2 =
        [FsOp.write (tmpPathOf target) contents,
         FsOp.rename (tmpPathOf target) target]
    ∧ applyOp fs (FsOp.write (tmpPathOf target) contents) target = fs target := by
  have htmp : tmpPathOf target ≠ target := by
    intro h
    have hb : ("." ++ target.base ++ ".tmp") = target.base := congrArg FsPath.base h
    have hl := congrArg String.length hb
    rw [String.length_append, String.length_append,
        show ("." : String).length = 1 from rfl,
        show (".tmp" : String).length = 4 from rfl] at hl
    omega
  refine ⟨?_, ?_, rfl, rfl, ?_⟩
  · show applyOp (applyOp fs (FsOp.write (tmpPathOf target) contents))
        (FsOp.rename (tmpPathOf target) target) target = some contents
    unfold applyOp
    simp
  · show applyOp (applyOp fs (FsOp.write (tmpPathOf target) contents))
        (FsOp.rename (tmpPathOf target) target) (tmpPathOf target) = none
    unfold applyOp
    simp [htmp]
  · show (if target = tmpPathOf target then some contents else fs target) = fs target
    rw [if_neg (fun h => htmp h.symm)]

/-- C6: a disabled config produces zero writes at every stage —
`generateSecurityTxt` returns before building or writing anything, and the
`astro:build:done` hook, when the loaded config is disabled, skips
generation entirely. -/
theorem disabled_config_writes_nothing {α : Type} (parse : α → Option Json)
    (dp : String → Bool) (s : ConfigFs α) (outDirOk : Bool) (c : SecurityConfig)
    (h : c.enabled = false) :
    generateSecurityTxt outDirOk c = []
    ∧ ((loadSecurityConfig parse dp s).enabled = false →
        buildDoneHook parse dp s outDirOk = []) := by
  constructor
  · unfold generateSecurityTxt
    rw [h]
    rfl
  · intro h2
    show (if ((loadSecurityConfig parse dp s).enabled != true) = true then []
          else generateSecurityTxt outDirOk (loadSecurityConfig parse dp s)) = []
    rw [h2]
    rfl

/-- Witness for C6: the Fallback Config (disabled) generates nothing, and
the hook over an empty config store writes nothing. -/
theorem disabled_config_writes_nothing_witness :
    FALLBACK_CONFIG.enabled = false
    ∧ generateSecurityTxt true FALLBACK_CONFIG = []
    ∧ ((loadSecurityConfig (fun j : Json => some j) dp0
          { canonical := none, legacy := none }).enabled = false →
        buildDoneHook (fun j : Json => some j) dp0
          { canonical := none, legacy := none } true = []) :=
  ⟨rfl,
   (disabled_config_writes_nothing (fun j : Json => some j) dp0
      { canonical := none, legacy := none } true FALLBACK_CONFIG rfl).1,
   (disabled_config_writes_nothing (fun j : Json => some j) dp0
      { canonical := none, legacy := none } true FALLBACK_CONFIG rfl).2⟩

/-- C7: every `SecurityConfig` the system constructs — the Fallback
constant, the scaffolded default, and every output of the normalizer —
satisfies the invariant that `enabled = true` implies a non-empty
`policy.contact` and a set (non-empty, date-parseable) `policy.expires`. -/
theorem constructed_configs_required_invariant (dp : String → Bool) (input : Json)
    (h1 : dp "2026-12-31T18:37:07.000Z" = true) (h2 : dp "" = false) :
    RequiredInvariant dp FALLBACK_CONFIG
    ∧ RequiredInvariant dp DEFAULT_CONFIG
    ∧ RequiredInvariant dp (normaliseConfig dp input) := by
  refine ⟨?_, ?_, ?_⟩
  · intro h
    simp [FALLBACK_CONFIG] at h
  · intro _
    exact ⟨by decide, by decide, h1⟩
  · intro hen
    obtain ⟨hc, _, hex, hdp, _⟩ :=
      normalise_enabled_invariants dp input _ rfl hen h2
    exact ⟨hc, isNonEmptyStr_iff.mp hex, hdp⟩

/-- Witness for C7 at the oracle `dp0` and input `null`. -/
theorem constructed_configs_required_invariant_witness :
    dp0 "2026-12-31T18:37:07.000Z" = true
    ∧ dp0 "" = false
    ∧ (RequiredInvariant dp0 FALLBACK_CONFIG
       ∧ RequiredInvariant dp0 DEFAULT_CONFIG
       ∧ RequiredInvariant dp0 (normaliseConfig dp0 Json.null)) :=
  ⟨by decide, by decide,
   constructed_configs_required_invariant dp0 Json.null (by decide) (by decide)⟩

/-- C10: the scaffolded first-run file round-trips: `ensureSecurityConfigFile`
on an empty store places exactly the `DEFAULT_CONFIG` JSON at the canonical
path, and normalising that parsed value yields `DEFAULT_CONFIG` itself —
no field dropped or altered — with `enabled` and both outputs true. -/
theorem default_config_roundtrip (dp : String → Bool)
    (h1 : dp "2026-12-31T18:37:07.000Z" = true) :
    (ensureSecurityConfigFile DEFAULT_CONFIG_JSON
        { canonical := none, legacy := none }).1.canonical = some DEFAULT_CONFIG_JSON
    ∧ normaliseConfig dp DEFAULT_CONFIG_JSON = DEFAULT_CONFIG
    ∧ DEFAULT_CONFIG.enabled = true
    ∧ DEFAULT_CONFIG.output.wellKnown = true
    ∧ DEFAULT_CONFIG.output.root = true := by
  refine ⟨rfl, ?_, rfl, rfl, rfl⟩
  have hexp : readExpires dp DEFAULT_POLICY_JSON = some "2026-12-31T18:37:07.000Z" :=
    (readExpires_eq_some dp DEFAULT_POLICY_JSON _).mpr ⟨rfl, h1⟩
  rw [normaliseConfig_gate_passes dp DEFAULT_CONFIG_JSON DEFAULT_POLICY_JSON
      "2026-12-31T18:37:07.000Z" rfl rfl rfl hexp (by decide)]
  decide

/-- Witness for C10 at the oracle `dp0`. -/
theorem default_config_roundtrip_witness :
    dp0 "2026-12-31T18:37:07.000Z" = true
    ∧ ((ensureSecurityConfigFile DEFAULT_CONFIG_JSON
          { canonical := none, legacy := none }).1.canonical = some DEFAULT_CONFIG_JSON
       ∧ normaliseConfig dp0 DEFAULT_CONFIG_JSON = DEFAULT_CONFIG
       ∧ DEFAULT_CONFIG.enabled = true
       ∧ DEFAULT_CONFIG.output.wellKnown = true
       ∧ DEFAULT_CONFIG.output.root = true) :=
  ⟨by decide, default_config_roundtrip dp0 (by decide)⟩

/-- C1 (divergence witness): on the store state `ensureSecurityConfigFile`
itself produces on a fresh install — the valid scaffold at the canonical
path, nothing at the legacy path — `loadSecurityConfig` returns the
Fallback Config, although the canonical file is present and normalises to
an enabled config. reader.ts consults only the root-level legacy path
(`path.join(process.cwd(), CONFIG_FILENAME)`, reader.ts line 53) and never
the canonical `config-files/` path that writer.ts migrates to. -/
theorem loadConfig_reads_only_legacy_path :
    (ensureSecurityConfigFile DEFAULT_CONFIG_JSON
        { canonical := none, legacy := none }).1
      = { canonical := some DEFAULT_CONFIG_JSON, legacy := none }
    ∧ (normaliseConfig dp0 DEFAULT_CONFIG_JSON).enabled = true
    ∧ loadSecurityConfig (fun j : Json => some j) dp0
        { canonical := some DEFAULT_CONFIG_JSON, legacy := none } = FALLBACK_CONFIG :=
  ⟨rfl, by decide, rfl⟩

/-- C5: for gate-passing input (an object whose `policy` object yields a
non-empty filtered contact list and a validating `expires` string), the
normalizer preserves the filtered contact sequence in order and keeps
exactly the optional fields that pass their predicate, with their exact
values. -/
theorem normalise_preserves_valid_fields (dp : String → Bool) (input pol : Json)
    (e : String)
    (hobj : isObject input = true)
    (hpol : input.getField "policy" = some pol)
    (hpobj : isObject pol = true)
    (hexp : readExpires dp pol = some e)
    (hc : readContact pol ≠ []) :
    PreservesValidFields dp input pol e := by
  unfold PreservesValidFields
  rw [normaliseConfig_gate_passes dp input pol e hobj hpol hpobj hexp hc]
  refine ⟨?_, rfl, ?_, ?_, ?_, ?_, ?_, ?_, ?_⟩
  · intro xs hxs
    show readContact pol = _
    unfold readContact
    rw [hxs]
    exact filterContacts_eq_filter xs
  · intro s
    exact asOptionalHttps_eq_some _ s
  · intro s
    exact asOptionalHttps_eq_some _ s
  · intro ls
    exact asOptionalStringArray_eq_some _ ls
  · intro ls
    exact asOptionalHttpsArray_eq_some _ ls
  · intro s
    exact asOptionalHttps_eq_some _ s
  · intro s
    exact asOptionalHttps_eq_some _ s
  · intro s
    exact asOptionalHttps_eq_some _ s

/-- Witness for C5 at the scaffold configuration. -/
theorem normalise_preserves_valid_fields_witness :
    isObject DEFAULT_CONFIG_JSON = true
    ∧ DEFAULT_CONFIG_JSON.getField "policy" = some DEFAULT_POLICY_JSON
    ∧ isObject DEFAULT_POLICY_JSON = true
    ∧ readExpires dp0 DEFAULT_POLICY_JSON = some "2026-12-31T18:37:07.000Z"
    ∧ readContact DEFAULT_POLICY_JSON ≠ []
    ∧ PreservesValidFields dp0 DEFAULT_CONFIG_JSON DEFAULT_POLICY_JSON
        "2026-12-31T18:37:07.000Z" :=
  ⟨rfl, rfl, rfl, rfl, by decide,
   normalise_preserves_valid_fields dp0 DEFAULT_CONFIG_JSON DEFAULT_POLICY_JSON
     "2026-12-31T18:37:07.000Z" rfl rfl rfl rfl (by decide)⟩

/-- A directive line assembled from a newline-free name and a non-empty
newline-free value has the claimed `Name: value` shape. -/
theorem line_witness (name v : String) (hn : noNl name = true) (hv : noNl v = true)
    (hvne : v ≠ "") (hmem : name ∈ directiveNames) :
    ∃ n w, name ++ ": " ++ v = n ++ ": " ++ w ∧ w ≠ "" ∧ n ∈ directiveNames
      ∧ noNl (name ++ ": " ++ v) = true :=
  ⟨name, v, rfl, hvne, hmem, noNl_append (noNl_append hn (by decide)) hv⟩

/-- C3 (amended): for every enabled config produced by the normalizer
whose field values contain no newline characters, the emitted text is
exactly the fixed-order directive lines, one `Contact:` per entry in array
order, exactly one `Expires:`, each optional directive exactly when
present, every line `Name: value` with a non-empty value, and exactly one
trailing newline. (The newline-free proviso is forced by the
counterexample: the normalizer does not reject embedded newlines.) -/
theorem serializer_fixed_order_newline_free (dp : String → Bool) (input : Json)
    (c : SecurityConfig)
    (hnorm : normaliseConfig dp input = c)
    (hen : c.enabled = true)
    (hdpe : dp "" = false)
    (hnl : configNoNewlines c = true) :
    SerializesFixedOrder c := by
  obtain ⟨hcne, hcmem, hexpne, _, henc, hack, hpl, hcan, hpol2, hhir, hcs⟩ :=
    normalise_enabled_invariants dp input c hnorm hen hdpe
  obtain ⟨nlc, nle, nlenc, nlack, nlpl, nlcan, nlpol, nlhir, nlcs⟩ :=
    configNoNewlines_fields hnl
  have hshape : securityTxtLines c =
      (c.policy.contact.map fun s => "Contact: " ++ s)
      ++ ["Expires: " ++ c.policy.expires]
      ++ (c.policy.encryption.toList.map fun s => "Encryption: " ++ s)
      ++ (c.policy.acknowledgments.toList.map fun s => "Acknowledgments: " ++ s)
      ++ (c.policy.preferredLanguages.toList.map fun ls =>
            "Preferred-Languages: " ++ joinWith ", " ls)
      ++ ((c.policy.canonical.getD []).map fun u => "Canonical: " ++ u)
      ++ (c.policy.policy.toList.map fun s => "Policy: " ++ s)
      ++ (c.policy.hiring.toList.map fun s => "Hiring: " ++ s)
      ++ (c.policy.csaf.toList.map fun s => "CSAF: " ++ s) := by
    unfold securityTxtLines
    rw [optLine_eq "Encryption" _ henc, optLine_eq "Acknowledgments" _ hack,
        optLine_eq "Policy" _ hpol2, optLine_eq "Hiring" _ hhir,
        optLine_eq "CSAF" _ hcs,
        optLangsLine_eq _ (fun ls hls => (hpl ls hls).1), canonicalLines_eq,
        show ("Encryption" : String) ++ ": " = "Encryption: " by decide,
        show ("Acknowledgments" : String) ++ ": " = "Acknowledgments: " by decide,
        show ("Policy" : String) ++ ": " = "Policy: " by decide,
        show ("Hiring" : String) ++ ": " = "Hiring: " by decide,
        show ("CSAF" : String) ++ ": " = "CSAF: " by decide]
  have hnlq : ∀ line ∈ securityTxtLines c,
      ∃ name v, line = name ++ ": " ++ v ∧ v ≠ "" ∧ name ∈ directiveNames
        ∧ noNl line = true := by
    intro line hline
    rw [hshape] at hline
    simp only [List.mem_append, List.mem_map, List.mem_singleton,
      Option.mem_toList, Option.mem_def] at hline
    rcases hline with
      ((((((((⟨s, hs, rfl⟩ | rfl) | ⟨s, hs, rfl⟩) | ⟨s, hs, rfl⟩) |
        ⟨ls, hls, rfl⟩) | ⟨u, hu, rfl⟩) | ⟨s, hs, rfl⟩) | ⟨s, hs, rfl⟩) | ⟨s, hs, rfl⟩)
    · rw [show ("Contact: " : String) = "Contact" ++ ": " by decide]
      exact line_witness "Contact" s (by decide) (nlc s hs)
        (isNonEmptyStr_iff.mp ((Bool.and_eq_true _ _).mp (hcmem s hs)).1) (by decide)
    · rw [show ("Expires: " : String) = "Expires" ++ ": " by decide]
      exact line_witness "Expires" c.policy.expires (by decide) nle
        (isNonEmptyStr_iff.mp hexpne) (by decide)
    · rw [show ("Encryption: " : String) = "Encryption" ++ ": " by decide]
      exact line_witness "Encryption" s (by decide) (nlenc s hs)
        (isNonEmptyStr_iff.mp (henc s hs)) (by decide)
    · rw [show ("Acknowledgments: " : String) = "Acknowledgments" ++ ": " by decide]
      exact line_witness "Acknowledgments" s (by decide) (nlack s hs)
        (isNonEmptyStr_iff.mp (hack s hs)) (by decide)
    · rw [show ("Preferred-Languages: " : String) = "Preferred-Languages" ++ ": " by decide]
      obtain ⟨hlsne, hlsmem⟩ := hpl ls hls
      have hjoin : joinWith ", " ls ≠ "" := by
        cases ls with
        | nil => exact absurd rfl hlsne
        | cons x xs =>
          exact joinWith_ne_empty
            (isNonEmptyStr_iff.mp (hlsmem x (List.mem_cons_self _ _))) xs
      exact line_witness "Preferred-Languages" (joinWith ", " ls) (by decide)
        (noNl_joinWith (by decide) (nlpl ls hls)) hjoin (by decide)
    · cases hcanv : c.policy.canonical with
      | none =>
        rw [hcanv] at hu
        cases hu
      | some ls =>
        rw [hcanv] at hu
        simp only [Option.getD_some] at hu
        rw [show ("Canonical: " : String) = "Canonical" ++ ": " by decide]
        exact line_witness "Canonical" u (by decide) (nlcan ls hcanv u hu)
          (isNonEmptyStr_iff.mp ((hcan ls hcanv).2 u hu)) (by decide)
    · rw [show ("Policy: " : String) = "Policy" ++ ": " by decide]
      exact line_witness "Policy" s (by decide) (nlpol s hs)
        (isNonEmptyStr_iff.mp (hpol2 s hs)) (by decide)
    · rw [show ("Hiring: " : String) = "Hiring" ++ ": " by decide]
      exact line_witness "Hiring" s (by decide) (nlhir s hs)
        (isNonEmptyStr_iff.mp (hhir s hs)) (by decide)
    · rw [show ("CSAF: " : String) = "CSAF" ++ ": " by decide]
      exact line_witness "CSAF" s (by decide) (nlcs s hs)
        (isNonEmptyStr_iff.mp (hcs s hs)) (by decide)
  have hallok : ∀ l ∈ securityTxtLines c, noNl l = true ∧ l ≠ "" := by
    intro l hl
    obtain ⟨n, v, h1, _, _, h4⟩ := hnlq l hl
    refine ⟨h4, ?_⟩
    rw [h1]
    intro h0
    have hlen := congrArg String.length h0
    rw [String.length_append, String.length_append,
        show (": " : String).length = 2 from rfl,
        show ("" : String).length = 0 from rfl] at hlen
    omega
  refine ⟨rfl, hshape, ?_, ?_⟩
  · intro line hl
    obtain ⟨n, v, h1, h2, h3, _⟩ := hnlq line hl
    exact ⟨n, v, h1, h2, h3⟩
  · show trailingNewlineCount (joinWith "\n" (securityTxtLines c) ++ "\n") = 1
    rw [trailingNewlineCount_append_newline, trailingNewlineCount_joinWith hallok]

/-- C3 counterexample to the claim as stated: `badNewlineInput` passes the
normalizer with `enabled = true` (its `csaf` value ends in `"\n"`), yet
the emitted text ends with two trailing newlines, not exactly one. -/
theorem serializer_trailing_newline_counterexample :
    (normaliseConfig dp0 badNewlineInput).enabled = true
    ∧ trailingNewlineCount
        (securityTxtContents (normaliseConfig dp0 badNewlineInput)) = 2 := by
  constructor
  · decide
  · decide

/-- Witness for C3 at the scaffold configuration. -/
theorem serializer_fixed_order_newline_free_witness :
    normaliseConfig dp0 DEFAULT_CONFIG_JSON = DEFAULT_CONFIG
    ∧ DEFAULT_CONFIG.enabled = true
    ∧ dp0 "" = false
    ∧ configNoNewlines DEFAULT_CONFIG = true
    ∧ SerializesFixedOrder DEFAULT_CONFIG :=
  ⟨by decide, rfl, by decide, by decide,
   serializer_fixed_order_newline_free dp0 DEFAULT_CONFIG_JSON DEFAULT_CONFIG
     (by decide) rfl (by decide) (by decide)⟩

end AstroSecurity
